import Mathlib

/-!
Shallow embedding of the patent search engine
(`src/patent-search-project 3/src/search_engine.py`).

Documents are records, the corpus is a list, embedding vectors are lists of
rationals (similarity scores are modelled over `ℚ`, an order-faithful model of
the finite IEEE-754 doubles produced by the code), and the external sentence
model together with sklearn's `cosine_similarity` row computation is an
abstract parameter `encodeSim`.  The real-valued cosine formula itself is
modelled separately over `ℝ` for the numerical claim.

`np.argsort` is modelled as the stable ascending argsort (ties by ascending
position): numpy's sort on the small arrays exercised here is stable, and the
stable order is the deterministic reading of the source.  The python loop in
`search` is translated line by line as `search_loop`.
-/

namespace PatentSearch

/-- A patent record as consumed by `PatentSearchEngine` (the fields the engine
reads: `document_number`, `title`, `classification_code`, `searchable_text`). -/
structure Patent where
  document_number : String
  title : String
  classification_code : String
  searchable_text : String
deriving DecidableEq, Repr, Inhabited

/-- Python `s.startswith(pre)`, modelled on the character lists. -/
def startswith (s pre : String) : Bool :=
  pre.data.isPrefixOf s.data

/-- Python `needle.lower() in hay.lower()`: case-insensitive substring
containment, modelled on the character lists. -/
def lowerContains (hay needle : String) : Prop :=
  needle.data.map Char.toLower <:+: hay.data.map Char.toLower

instance (hay needle : String) : Decidable (lowerContains hay needle) := by
  unfold lowerContains; infer_instance

/-- The `if classification_filter:` block of `_apply_filters`: skipped when
the filter is absent or falsy (empty), otherwise `startswith`. -/
def classification_check (patent : Patent) : Option String → Bool
  | none => true
  | some cf =>
    if cf.data.isEmpty then true
    else startswith patent.classification_code cf

/-- The `if title_keyword:` block of `_apply_filters`: skipped when the
keyword is absent or falsy (empty), otherwise lower-cased containment. -/
def title_check (patent : Patent) : Option String → Bool
  | none => true
  | some tk =>
    if tk.data.isEmpty then true
    else decide (lowerContains patent.title tk)

/-- `PatentSearchEngine._apply_filters`: returns `none` when both filters are
`None` (python `if classification_filter is None and title_keyword is None`);
otherwise the indices of the patents passing every active check. -/
def apply_filters (patents : List Patent) (classification_filter : Option String)
    (title_keyword : Option String) : Option (List Nat) :=
  if classification_filter = none ∧ title_keyword = none then
    none
  else
    some <| (List.range patents.length).filter fun idx =>
      classification_check (patents.getD idx default) classification_filter
      && title_check (patents.getD idx default) title_keyword

/-- The check `valid_indices is not None and idx not in valid_indices` inverted:
`true` when the loop in `search` keeps index `idx`. -/
def passesFilter (valid_indices : Option (List Nat)) (idx : Nat) : Bool :=
  match valid_indices with
  | none => true
  | some v => v.contains idx

/-- The comparison realised by a stable ascending `np.argsort`: index `i`
precedes index `j` when its score is smaller, with ties broken by position. -/
def argsortRel (sims : List ℚ) (i j : Nat) : Prop :=
  sims.getD i 0 < sims.getD j 0 ∨ (sims.getD i 0 = sims.getD j 0 ∧ i ≤ j)

instance argsortRel.instDecidable (sims : List ℚ) : DecidableRel (argsortRel sims) :=
  fun i j => by unfold argsortRel; infer_instance

/-- `np.argsort(similarities)` (stable): the indices `0..len-1` sorted by
ascending score, ties by ascending index. -/
def argsort (sims : List ℚ) : List Nat :=
  List.insertionSort (argsortRel sims) (List.range sims.length)

/-- One search result: a copy of the patent together with its
`similarity_score`. -/
def result_at (patents : List Patent) (sims : List ℚ) (idx : Nat) : Patent × ℚ :=
  (patents.getD idx default, sims.getD idx 0)

/-- The `for idx in sorted_indices` loop of `PatentSearchEngine.search`:
skip indices failing the filter, append the patent with its score, and break
as soon as `len(results) >= top_k` — the length test happens after the
append. -/
def search_loop (patents : List Patent) (similarities : List ℚ)
    (valid_indices : Option (List Nat)) (top_k : Int) :
    List Nat → List (Patent × ℚ) → List (Patent × ℚ)
  | [], results => results
  | idx :: rest, results =>
    if passesFilter valid_indices idx then
      let results' := results ++ [result_at patents similarities idx]
      if top_k ≤ (results'.length : Int) then results'
      else search_loop patents similarities valid_indices top_k rest results'
    else search_loop patents similarities valid_indices top_k rest results

/-- Steps 3–4 of `PatentSearchEngine.search`: iterate
`np.argsort(similarities)[::-1]` through the selection loop. -/
def top_results (patents : List Patent) (similarities : List ℚ)
    (valid_indices : Option (List Nat)) (top_k : Int) : List (Patent × ℚ) :=
  search_loop patents similarities valid_indices top_k (argsort similarities).reverse []

/-- The error raised by `search` when `self.embeddings is None`
(`ValueError("❌ No embeddings! ...")`). -/
inductive SearchError where
  | noEmbeddings
deriving DecidableEq, Repr

deriving instance DecidableEq for Except

/-- The engine state: the corpus and the optional embedding matrix
(`self.embeddings`, `None` until created or loaded). -/
structure Engine where
  patents : List Patent
  embeddings : Option (List (List ℚ))
deriving DecidableEq, Repr

/-- `PatentSearchEngine.search`: fail when no embeddings are loaded, else
compute the similarity row for the query (the external model plus sklearn's
`cosine_similarity`, abstracted as `encodeSim`), apply the filters and select
the top results. -/
def search (encodeSim : String → List (List ℚ) → List ℚ) (e : Engine)
    (query : String) (top_k : Int)
    (classification_filter title_keyword : Option String) :
    Except SearchError (List (Patent × ℚ)) :=
  match e.embeddings with
  | none => Except.error SearchError.noEmbeddings
  | some embeddings =>
    let similarities := encodeSim query embeddings
    let valid_indices := apply_filters e.patents classification_filter title_keyword
    Except.ok (top_results e.patents similarities valid_indices top_k)

/-- Python `xs[:top_k]` for an `int` bound: clip from the front when the bound
is non-negative, drop `|top_k|` elements from the back when negative. -/
def pySlice {α : Type} (top_k : Int) (xs : List α) : List α :=
  if 0 ≤ top_k then xs.take top_k.toNat
  else xs.take (xs.length - (-top_k).toNat)

/-- `PatentSearchEngine.search_by_patent_id`: linear scan for the first patent
whose `document_number` matches; on a miss the code prints a message and
returns the empty list.  On a hit it searches with the patent's own
`searchable_text` and `top_k + 1`, removes every result carrying the queried
id, and truncates to `top_k`. -/
def search_by_patent_id (encodeSim : String → List (List ℚ) → List ℚ)
    (e : Engine) (document_number : String) (top_k : Int) :
    Except SearchError (List (Patent × ℚ)) :=
  match e.patents.find? (fun p => p.document_number == document_number) with
  | none => Except.ok []
  | some reference_patent =>
    match search encodeSim e reference_patent.searchable_text (top_k + 1) none none with
    | Except.error err => Except.error err
    | Except.ok results =>
      Except.ok (pySlice top_k
        (results.filter fun r => r.1.document_number != document_number))

/-- The dictionary returned by `get_search_statistics`; absent keys are
`none`. -/
structure SearchStats where
  count : Nat
  avg_similarity : Option ℚ
  max_similarity : Option ℚ
  min_similarity : Option ℚ
deriving DecidableEq, Repr

/-- `PatentSearchEngine.get_search_statistics`: `{'count': 0}` on an empty
result list, else count with mean, max and min of the similarity scores. -/
def get_search_statistics : List (Patent × ℚ) → SearchStats
  | [] => { count := 0, avg_similarity := none, max_similarity := none, min_similarity := none }
  | r :: rs =>
    let scores := (r :: rs).map fun x => x.2
    { count := (r :: rs).length
      avg_similarity := some (scores.sum / (scores.length : ℚ))
      max_similarity := some ((rs.map fun x => x.2).foldl max r.2)
      min_similarity := some ((rs.map fun x => x.2).foldl min r.2) }

/-- Modelled from the spec: the ordering key `(−score, index)` — score
descending, ties by ascending original corpus index. -/
def spec_key_asc (sims : List ℚ) (i j : Nat) : Prop :=
  -sims.getD i 0 < -sims.getD j 0 ∨ (-sims.getD i 0 = -sims.getD j 0 ∧ i ≤ j)

instance spec_key_asc.instDecidable (sims : List ℚ) : DecidableRel (spec_key_asc sims) :=
  fun i j => by unfold spec_key_asc; infer_instance

/-- Modelled from the spec: a stable sort of the admissible indices by the
key `(−score, index)` (insertion sort is stable; with the index tie-break the
key is injective, so any stable sort yields this list). -/
def spec_stable_sort (sims : List ℚ) (admissible : List Nat) : List Nat :=
  List.insertionSort (spec_key_asc sims) admissible

/-- The ordering key `(−score, −index)`: score descending, ties by descending
original corpus index — the order the code actually realises. -/
def spec_key_desc (sims : List ℚ) (i j : Nat) : Prop :=
  -sims.getD i 0 < -sims.getD j 0 ∨ (-sims.getD i 0 = -sims.getD j 0 ∧ j ≤ i)

instance spec_key_desc.instDecidable (sims : List ℚ) : DecidableRel (spec_key_desc sims) :=
  fun i j => by unfold spec_key_desc; infer_instance

/-- Sort of the admissible indices by the key `(−score, −index)`. -/
def spec_stable_sort_desc (sims : List ℚ) (admissible : List Nat) : List Nat :=
  List.insertionSort (spec_key_desc sims) admissible

/-- The admissible indices of an `n`-element score row, in corpus order. -/
def admissible_indices (n : Nat) (valid_indices : Option (List Nat)) : List Nat :=
  (List.range n).filter (passesFilter valid_indices)

instance argsortRel.instIsTotal (sims : List ℚ) : IsTotal Nat (argsortRel sims) := by
  constructor
  intro a b
  unfold argsortRel
  rcases lt_trichotomy (sims.getD a 0) (sims.getD b 0) with h | h | h
  · exact Or.inl (Or.inl h)
  · rcases Nat.le_total a b with hab | hab
    · exact Or.inl (Or.inr ⟨h, hab⟩)
    · exact Or.inr (Or.inr ⟨h.symm, hab⟩)
  · exact Or.inr (Or.inl h)

instance argsortRel.instIsTrans (sims : List ℚ) : IsTrans Nat (argsortRel sims) := by
  constructor
  intro a b c h₁ h₂
  unfold argsortRel at *
  rcases h₁ with h₁ | ⟨e₁, t₁⟩ <;> rcases h₂ with h₂ | ⟨e₂, t₂⟩
  · exact Or.inl (h₁.trans h₂)
  · exact Or.inl (e₂ ▸ h₁)
  · exact Or.inl (e₁ ▸ h₂)
  · exact Or.inr ⟨e₁.trans e₂, Nat.le_trans t₁ t₂⟩

instance spec_key_desc.instIsTotal (sims : List ℚ) : IsTotal Nat (spec_key_desc sims) := by
  constructor
  intro a b
  unfold spec_key_desc
  rcases lt_trichotomy (-sims.getD a 0) (-sims.getD b 0) with h | h | h
  · exact Or.inl (Or.inl h)
  · rcases Nat.le_total b a with hab | hab
    · exact Or.inl (Or.inr ⟨h, hab⟩)
    · exact Or.inr (Or.inr ⟨h.symm, hab⟩)
  · exact Or.inr (Or.inl h)

instance spec_key_desc.instIsTrans (sims : List ℚ) : IsTrans Nat (spec_key_desc sims) := by
  constructor
  intro a b c h₁ h₂
  unfold spec_key_desc at *
  rcases h₁ with h₁ | ⟨e₁, t₁⟩ <;> rcases h₂ with h₂ | ⟨e₂, t₂⟩
  · exact Or.inl (h₁.trans h₂)
  · exact Or.inl (e₂ ▸ h₁)
  · exact Or.inl (e₁ ▸ h₂)
  · exact Or.inr ⟨e₁.trans e₂, Nat.le_trans t₂ t₁⟩

instance spec_key_desc.instIsAntisymm (sims : List ℚ) : IsAntisymm Nat (spec_key_desc sims) := by
  constructor
  intro a b h₁ h₂
  unfold spec_key_desc at *
  rcases h₁ with h₁ | ⟨e₁, t₁⟩ <;> rcases h₂ with h₂ | ⟨e₂, t₂⟩
  · exact absurd h₂ (not_lt.mpr h₁.le)
  · exact absurd h₁ (not_lt.mpr e₂.le)
  · exact absurd h₂ (not_lt.mpr e₁.le)
  · exact Nat.le_antisymm t₂ t₁

instance spec_key_asc.instIsTotal (sims : List ℚ) : IsTotal Nat (spec_key_asc sims) := by
  constructor
  intro a b
  unfold spec_key_asc
  rcases lt_trichotomy (-sims.getD a 0) (-sims.getD b 0) with h | h | h
  · exact Or.inl (Or.inl h)
  · rcases Nat.le_total a b with hab | hab
    · exact Or.inl (Or.inr ⟨h, hab⟩)
    · exact Or.inr (Or.inr ⟨h.symm, hab⟩)
  · exact Or.inr (Or.inl h)

instance spec_key_asc.instIsTrans (sims : List ℚ) : IsTrans Nat (spec_key_asc sims) := by
  constructor
  intro a b c h₁ h₂
  unfold spec_key_asc at *
  rcases h₁ with h₁ | ⟨e₁, t₁⟩ <;> rcases h₂ with h₂ | ⟨e₂, t₂⟩
  · exact Or.inl (h₁.trans h₂)
  · exact Or.inl (e₂ ▸ h₁)
  · exact Or.inl (e₁ ▸ h₂)
  · exact Or.inr ⟨e₁.trans e₂, Nat.le_trans t₁ t₂⟩

/-- Closed form of the selection loop: it emits the admissible indices of the
stream in stream order, truncated after `max (top_k − |acc|) 1` appends (at
least one append always happens before the break test). -/
theorem search_loop_eq (patents : List Patent) (sims : List ℚ)
    (valid_indices : Option (List Nat)) (top_k : Int) :
    ∀ (stream : List Nat) (acc : List (Patent × ℚ)),
      search_loop patents sims valid_indices top_k stream acc =
        acc ++ ((stream.filter (passesFilter valid_indices)).map
          (result_at patents sims)).take (max (top_k - (acc.length : Int)) 1).toNat := by
  intro stream
  induction stream with
  | nil => intro acc; simp [search_loop]
  | cons idx rest ih =>
    intro acc
    by_cases hp : passesFilter valid_indices idx
    · rw [search_loop]
      simp only [hp, if_true, List.filter_cons, List.map_cons]
      by_cases hk : top_k ≤ ((acc ++ [result_at patents sims idx]).length : Int)
      · rw [if_pos hk]
        have hlen : ((acc ++ [result_at patents sims idx]).length : Int)
            = (acc.length : Int) + 1 := by simp
        rw [hlen] at hk
        have h1 : (max (top_k - (acc.length : Int)) 1).toNat = 1 := by omega
        rw [h1]
        simp
      · rw [if_neg hk]
        rw [ih (acc ++ [result_at patents sims idx])]
        have hlen : ((acc ++ [result_at patents sims idx]).length : Int)
            = (acc.length : Int) + 1 := by simp
        rw [hlen] at hk
        push_neg at hk
        have h2 : (max (top_k - (acc.length : Int)) 1).toNat
            = (max (top_k - ((acc.length : Int) + 1)) 1).toNat + 1 := by omega
        rw [h2, List.take_succ_cons]
        simp
    · rw [search_loop]
      simp only [hp, if_false, List.filter_cons]
      rw [ih acc]
      simp [hp]

/-- `top_results` is the first `max top_k 1` admissible entries of the
descending argsort order. -/
theorem top_results_eq (patents : List Patent) (sims : List ℚ)
    (valid_indices : Option (List Nat)) (top_k : Int) :
    top_results patents sims valid_indices top_k =
      (((argsort sims).reverse.filter (passesFilter valid_indices)).map
        (result_at patents sims)).take (max top_k 1).toNat := by
  rw [top_results, search_loop_eq]
  simp

/-- The stream the loop consumes — the reversed stable argsort, restricted to
the admissible indices — is exactly the admissible indices sorted by
`(−score, −index)`. -/
theorem engine_stream_eq (sims : List ℚ) (valid_indices : Option (List Nat)) :
    (argsort sims).reverse.filter (passesFilter valid_indices) =
      spec_stable_sort_desc sims (admissible_indices sims.length valid_indices) := by
  have hsorted₁ : List.Pairwise (argsortRel sims) (argsort sims) :=
    List.sorted_insertionSort (argsortRel sims) (List.range sims.length)
  have hrev : List.Pairwise (spec_key_desc sims) (argsort sims).reverse := by
    rw [List.pairwise_reverse]
    refine hsorted₁.imp ?_
    intro a b hab
    rcases hab with h | ⟨e, t⟩
    · exact Or.inl (by simpa using h)
    · exact Or.inr ⟨by rw [e], t⟩
  have h₂ : List.Pairwise (spec_key_desc sims)
      ((argsort sims).reverse.filter (passesFilter valid_indices)) :=
    hrev.filter _
  have h₃ : List.Pairwise (spec_key_desc sims)
      (spec_stable_sort_desc sims (admissible_indices sims.length valid_indices)) :=
    List.sorted_insertionSort (spec_key_desc sims) _
  have p₁ : (argsort sims).Perm (List.range sims.length) :=
    List.perm_insertionSort (argsortRel sims) (List.range sims.length)
  have p₂ : ((argsort sims).reverse.filter (passesFilter valid_indices)).Perm
      (admissible_indices sims.length valid_indices) :=
    (((argsort sims).reverse_perm.trans p₁).filter _)
  have p₃ : (spec_stable_sort_desc sims
      (admissible_indices sims.length valid_indices)).Perm
      (admissible_indices sims.length valid_indices) :=
    List.perm_insertionSort (spec_key_desc sims) _
  exact List.eq_of_perm_of_sorted (p₂.trans p₃.symm) h₂ h₃

/-- Scenario document A of the spec (vector `[1,0]`). -/
def patA : Patent := ⟨"A", "title a", "B60B", "text a"⟩

/-- Scenario document B of the spec (vector `[0,1]`). -/
def patB : Patent := ⟨"B", "title b", "F16H", "text b"⟩

/-- Scenario document C of the spec (vector `[1,0]`). -/
def patC : Patent := ⟨"C", "title c", "B60B", "text c"⟩

/-- Claim C1, counterexample: on the spec's own scenario (scores `[1,0,1]`,
no filter, `top_k = 2`) the code returns C before A — equal scores come out
in descending corpus index order, so the result sequence differs from the
first two entries of the stable sort by the key `(−score, index)`, which
orders A before C. -/
theorem C1_counterexample :
    (top_results [patA, patB, patC] [1, 0, 1] none 2).map
        (fun r => r.1.document_number) = ["C", "A"] ∧
    (((spec_stable_sort [1, 0, 1] (admissible_indices 3 none)).map
        (result_at [patA, patB, patC] [1, 0, 1])).take 2).map
        (fun r => r.1.document_number) = ["A", "C"] ∧
    top_results [patA, patB, patC] [1, 0, 1] none 2 ≠
      ((spec_stable_sort [1, 0, 1] (admissible_indices 3 none)).map
        (result_at [patA, patB, patC] [1, 0, 1])).take 2 := by
  decide

/-- Claim C1, amended: for every corpus, score row and admissible set the
result sequence of `search` is sorted by similarity score descending, any two
results with equal scores appearing in descending original corpus index
order; the ordering equals that of a sort of the admissible indices by the
key `(−score, −index)`, truncated to the number of results kept. -/
theorem C1_ordering_amended (patents : List Patent) (sims : List ℚ)
    (valid_indices : Option (List Nat)) (top_k : Int) :
    top_results patents sims valid_indices top_k =
      ((spec_stable_sort_desc sims (admissible_indices sims.length valid_indices)).map
        (result_at patents sims)).take (max top_k 1).toNat ∧
    (top_results patents sims valid_indices top_k).Pairwise
      (fun r r' => r'.2 ≤ r.2) := by
  have heq : top_results patents sims valid_indices top_k =
      ((spec_stable_sort_desc sims (admissible_indices sims.length valid_indices)).map
        (result_at patents sims)).take (max top_k 1).toNat := by
    rw [top_results_eq, engine_stream_eq]
  refine ⟨heq, ?_⟩
  rw [heq]
  have hs : List.Pairwise (spec_key_desc sims)
      (spec_stable_sort_desc sims (admissible_indices sims.length valid_indices)) :=
    List.sorted_insertionSort (spec_key_desc sims) _
  have hm : List.Pairwise (fun r r' : Patent × ℚ => r'.2 ≤ r.2)
      ((spec_stable_sort_desc sims (admissible_indices sims.length valid_indices)).map
        (result_at patents sims)) := by
    rw [List.pairwise_map]
    refine hs.imp ?_
    intro i j hij
    rcases hij with h | ⟨e, _⟩
    · exact le_of_lt (by simpa [result_at] using h)
    · have he : sims.getD i 0 = sims.getD j 0 := neg_injective e
      show (result_at patents sims j).2 ≤ (result_at patents sims i).2
      simp only [result_at]
      exact le_of_eq he.symm
  exact hm.sublist (List.take_sublist _ _)

/-- Claim C3, counterexample: with a one-document corpus, no filter and
`top_k = 0` the code returns one result, not the empty sequence — the loop
appends before it tests `len(results) >= top_k`. -/
theorem C3_counterexample :
    top_results [patA] [1] none 0 = [(patA, 1)] ∧
    top_results [patA] [1] none 0 ≠ [] := by
  decide

/-- Claim C3, amended: if `top_k ≤ 0`, `search` returns the single
highest-ranked admissible result when the admissible set is non-empty (the
empty sequence only when it is empty), and whenever `top_k` exceeds the size
of the admissible set it returns exactly all admissible results with no
padding. -/
theorem C3_topk_amended (patents : List Patent) (sims : List ℚ)
    (valid_indices : Option (List Nat)) (top_k : Int) :
    (top_k ≤ 0 →
      (top_results patents sims valid_indices top_k).length =
        min 1 (admissible_indices sims.length valid_indices).length) ∧
    ((admissible_indices sims.length valid_indices).length < top_k →
      top_results patents sims valid_indices top_k =
        (spec_stable_sort_desc sims (admissible_indices sims.length valid_indices)).map
          (result_at patents sims)) := by
  have hlen : (spec_stable_sort_desc sims
      (admissible_indices sims.length valid_indices)).length =
      (admissible_indices sims.length valid_indices).length :=
    (List.perm_insertionSort (spec_key_desc sims) _).length_eq
  constructor
  · intro hk
    rw [top_results_eq, engine_stream_eq]
    have h1 : (max top_k 1).toNat = 1 := by omega
    rw [h1]
    simp [hlen]
  · intro hk
    rw [top_results_eq, engine_stream_eq]
    refine List.take_of_length_le ?_
    rw [List.length_map, hlen]
    omega

/-- Claim C3, witness: on the three-document scenario corpus, `top_k = 0`
yields one result and `top_k = 5` yields all three admissible results. -/
theorem C3_topk_witness :
    (top_results [patA, patB, patC] [1, 0, 1] none 0).length =
      min 1 (admissible_indices (List.length [(1 : ℚ), 0, 1]) none).length ∧
    top_results [patA, patB, patC] [1, 0, 1] none 5 =
      (spec_stable_sort_desc [1, 0, 1]
        (admissible_indices (List.length [(1 : ℚ), 0, 1]) none)).map
        (result_at [patA, patB, patC] [1, 0, 1]) :=
  ⟨(C3_topk_amended [patA, patB, patC] [1, 0, 1] none 0).1 (by decide),
   (C3_topk_amended [patA, patB, patC] [1, 0, 1] none 5).2 (by decide)⟩

/-- Claim C9: for every corpus, score row and admissible set, the result
sequence of `search` with `top_k = k` is a prefix of the result sequence with
`top_k = k + m`, for every `m ≥ 0`. -/
theorem C9_topk_monotone (patents : List Patent) (sims : List ℚ)
    (valid_indices : Option (List Nat)) (k m : Int) (hm : 0 ≤ m) :
    top_results patents sims valid_indices k <+:
      top_results patents sims valid_indices (k + m) := by
  rw [top_results_eq, top_results_eq]
  have h : (max k 1).toNat ≤ (max (k + m) 1).toNat := by omega
  have heq : (((argsort sims).reverse.filter (passesFilter valid_indices)).map
      (result_at patents sims)).take (max k 1).toNat =
      ((((argsort sims).reverse.filter (passesFilter valid_indices)).map
        (result_at patents sims)).take (max (k + m) 1).toNat).take (max k 1).toNat := by
    rw [List.take_take]
    congr 1
    omega
  rw [heq]
  exact List.take_prefix _ _

/-- Claim C9, witness: on the scenario corpus, the `top_k = 1` result list is
a prefix of the `top_k = 1 + 1` result list. -/
theorem C9_topk_monotone_witness :
    top_results [patA, patB, patC] [1, 0, 1] none 1 <+:
      top_results [patA, patB, patC] [1, 0, 1] none (1 + 1) :=
  C9_topk_monotone [patA, patB, patC] [1, 0, 1] none 1 1 (by decide)

/-- The classification check passes exactly when every present filter string
is a (case-sensitive) character prefix of the classification code. -/
theorem classification_check_iff (p : Patent) (cf : Option String) :
    classification_check p cf = true ↔
      ∀ c, cf = some c → c.data <+: p.classification_code.data := by
  cases cf with
  | none => simp [classification_check]
  | some c =>
    constructor
    · intro h c' hc'
      injection hc' with hc''
      subst hc''
      by_cases hce : c.data.isEmpty
      · have hnil : c.data = [] := by simpa using hce
        rw [hnil]
        exact List.nil_prefix
      · simp only [classification_check, if_neg hce, startswith] at h
        exact List.isPrefixOf_iff_prefix.mp h
    · intro h
      have hp := h c rfl
      by_cases hce : c.data.isEmpty
      · simp only [classification_check, if_pos hce]
      · simp only [classification_check, if_neg hce, startswith]
        exact List.isPrefixOf_iff_prefix.mpr hp

/-- The title check passes exactly when every present keyword is, lower-cased,
an infix of the lower-cased title. -/
theorem title_check_iff (p : Patent) (tk : Option String) :
    title_check p tk = true ↔
      ∀ t, tk = some t →
        t.data.map Char.toLower <:+: p.title.data.map Char.toLower := by
  cases tk with
  | none => simp [title_check]
  | some t =>
    constructor
    · intro h t' ht'
      injection ht' with ht''
      subst ht''
      by_cases hte : t.data.isEmpty
      · have hnil : t.data = [] := by simpa using hte
        rw [hnil]
        exact ⟨[], p.title.data.map Char.toLower, by simp⟩
      · simp only [title_check, if_neg hte, decide_eq_true_iff] at h
        exact h
    · intro h
      have hp := h t rfl
      by_cases hte : t.data.isEmpty
      · simp only [title_check, if_pos hte]
      · simp only [title_check, if_neg hte, decide_eq_true_iff]
        exact hp

/-- Claim C5: when at least one predicate is present, `_apply_filters` returns
an explicit index list, and an index is in it exactly when it is a corpus
index whose document satisfies every present predicate — case-sensitive
prefix match on the classification code, case-insensitive substring
containment in the title. -/
theorem C5_filter_semantics (patents : List Patent)
    (classification_filter title_keyword : Option String)
    (hpres : ¬(classification_filter = none ∧ title_keyword = none)) (idx : Nat) :
    idx ∈ (apply_filters patents classification_filter title_keyword).getD [] ↔
      idx < patents.length ∧
      (∀ c, classification_filter = some c →
        c.data <+: (patents.getD idx default).classification_code.data) ∧
      (∀ t, title_keyword = some t →
        t.data.map Char.toLower <:+:
          ((patents.getD idx default).title.data.map Char.toLower)) := by
  unfold apply_filters
  rw [if_neg hpres]
  simp only [Option.getD_some, List.mem_filter, List.mem_range, Bool.and_eq_true,
    classification_check_iff, title_check_iff]

/-- Claim C5, witness: the spec scenario — filtering on prefix "B60" over
classification codes `["B60B", "F16H", "B60B"]` yields exactly the indices
`{0, 2}`, and index 2's membership follows from the characterisation. -/
theorem C5_filter_semantics_witness :
    apply_filters [patA, patB, patC] (some "B60") none = some [0, 2] ∧
    2 ∈ (apply_filters [patA, patB, patC] (some "B60") none).getD [] :=
  ⟨by decide,
   (C5_filter_semantics [patA, patB, patC] (some "B60") none (by simp) 2).mpr
     ⟨by norm_num,
      fun c hc => by injection hc with h; subst h; decide,
      fun t ht => by cases ht⟩⟩

/-- Claim C2, counterexample: looking up an id that matches no document makes
`search_by_patent_id` return the successful empty result list — it does not
fail with any error value. -/
theorem C2_counterexample :
    search_by_patent_id (fun _ _ => [1, 0, 1])
        ⟨[patA, patB, patC], some [[1, 0], [0, 1], [1, 0]]⟩ "Z" 5 = Except.ok [] ∧
    search_by_patent_id (fun _ _ => [1, 0, 1])
        ⟨[patA, patB, patC], some [[1, 0], [0, 1], [1, 0]]⟩ "Z" 5 ≠
      Except.error SearchError.noEmbeddings := by
  decide

/-- Claim C2, amended: for every corpus and every id that matches no
document's identifier, `search_by_patent_id` returns the successful empty
result sequence (printing a message), not a distinct `NotFoundError` value. -/
theorem C2_not_found_amended (encodeSim : String → List (List ℚ) → List ℚ)
    (e : Engine) (document_number : String) (top_k : Int)
    (habs : ∀ p ∈ e.patents, p.document_number ≠ document_number) :
    search_by_patent_id encodeSim e document_number top_k = Except.ok [] := by
  have hfind : e.patents.find? (fun p => p.document_number == document_number) = none := by
    rw [List.find?_eq_none]
    intro p hp
    simpa using habs p hp
  unfold search_by_patent_id
  rw [hfind]

/-- Claim C2, witness: a concrete miss returns the successful empty list. -/
theorem C2_not_found_witness :
    search_by_patent_id (fun _ _ => [1]) ⟨[patA], some [[1]]⟩ "Z" 7 = Except.ok [] :=
  C2_not_found_amended (fun _ _ => [1]) ⟨[patA], some [[1]]⟩ "Z" 7 (by decide)

/-- Claim C4: for an id `X` present in the corpus, whenever
`search_by_patent_id X top_k` succeeds with a result list, no entry of that
list carries the identifier `X` (exclusion is by identifier equality, so all
duplicates are removed), and the list has at most `top_k` entries. -/
theorem C4_self_exclusion (encodeSim : String → List (List ℚ) → List ℚ)
    (e : Engine) (X : String) (top_k : Int) (rs : List (Patent × ℚ))
    (hk : 0 ≤ top_k) (_hmem : ∃ p ∈ e.patents, p.document_number = X)
    (h : search_by_patent_id encodeSim e X top_k = Except.ok rs) :
    (∀ r ∈ rs, r.1.document_number ≠ X) ∧ (rs.length : Int) ≤ top_k := by
  clear _hmem
  unfold search_by_patent_id at h
  split at h
  · injection h with h'
    subst h'
    exact ⟨by simp, by simpa using hk⟩
  · split at h
    · exact absurd h (by simp)
    · injection h with h'
      subst h'
      have hslice : ∀ L : List (Patent × ℚ), pySlice top_k L = L.take top_k.toNat := by
        intro L
        rw [pySlice, if_pos hk]
      rw [hslice]
      constructor
      · intro r hr
        have hrL := List.take_subset _ _ hr
        have hpred := (List.mem_filter.mp hrL).2
        simpa using hpred
      · rw [List.length_take]
        omega

/-- Claim C4, witness: querying id "A" on the scenario corpus with
`top_k = 1` returns exactly `[C]`; the theorem instance yields that C's id
differs from "A" and the length bound holds. -/
theorem C4_self_exclusion_witness :
    (patC, (1 : ℚ)).1.document_number ≠ "A" ∧
    (([(patC, (1 : ℚ))].length : Int) ≤ 1) := by
  have h := C4_self_exclusion (fun _ _ => [1, 0, 1])
    ⟨[patA, patB, patC], some [[1, 0], [0, 1], [1, 0]]⟩ "A" 1 [(patC, 1)]
    (by decide) (by decide) (by decide)
  exact ⟨h.1 (patC, 1) (by simp), h.2⟩

/-- Claim C6: `search` on an engine whose embeddings are not loaded fails
with the no-embeddings error, and with embeddings present it always succeeds
with the ranked results — the error branch is unreachable. -/
theorem C6_no_embeddings (encodeSim : String → List (List ℚ) → List ℚ)
    (e : Engine) (query : String) (top_k : Int)
    (classification_filter title_keyword : Option String) :
    (e.embeddings = none →
      search encodeSim e query top_k classification_filter title_keyword =
        Except.error SearchError.noEmbeddings) ∧
    (∀ emb, e.embeddings = some emb →
      search encodeSim e query top_k classification_filter title_keyword =
        Except.ok (top_results e.patents (encodeSim query emb)
          (apply_filters e.patents classification_filter title_keyword) top_k)) := by
  constructor
  · intro h
    unfold search
    rw [h]
  · intro emb h
    unfold search
    rw [h]

/-- Claim C6, witness: both branches at concrete engines. -/
theorem C6_no_embeddings_witness :
    search (fun _ _ => [1]) ⟨[patA], none⟩ "q" 5 none none =
      Except.error SearchError.noEmbeddings ∧
    search (fun _ _ => [1]) ⟨[patA], some [[1]]⟩ "q" 5 none none =
      Except.ok (top_results [patA] ((fun _ _ => [(1 : ℚ)]) "q" [[(1 : ℚ)]])
        (apply_filters [patA] none none) 5) :=
  ⟨(C6_no_embeddings (fun _ _ => [1]) ⟨[patA], none⟩ "q" 5 none none).1 rfl,
   (C6_no_embeddings (fun _ _ => [1]) ⟨[patA], some [[1]]⟩ "q" 5 none none).2
     [[1]] rfl⟩

/-- Claim C10: there is a corpus holding at least `top_k` documents with id
different from `X`, on which `search_by_patent_id X top_k` nevertheless
returns strictly fewer than `top_k` results: only `top_k + 1` ranked
candidates are retrieved before the id-`X` entries (here two duplicates
ranked on top) are excluded. -/
theorem C10_truncation_shortfall :
    ∃ (e : Engine) (encodeSim : String → List (List ℚ) → List ℚ)
      (X : String) (top_k : Int) (rs : List (Patent × ℚ)),
      0 < top_k ∧
      top_k ≤ ((e.patents.filter fun p => p.document_number != X).length : Int) ∧
      2 ≤ (e.patents.filter fun p => p.document_number == X).length ∧
      search_by_patent_id encodeSim e X top_k = Except.ok rs ∧
      (rs.length : Int) < top_k := by
  refine ⟨⟨[⟨"X", "t0", "c0", "s0"⟩, ⟨"X", "t1", "c1", "s1"⟩,
    ⟨"Y", "t2", "c2", "s2"⟩], some [[1], [1], [1]]⟩,
    fun _ _ => [10, 9, 1], "X", 1, [], ?_, ?_, ?_, ?_, ?_⟩ <;> decide

/-- Dot product of two vectors, pairing componentwise (extra components of the
longer vector are ignored, as with equal-dimension inputs). -/
def dotList (a b : List ℝ) : ℝ :=
  (List.zipWith (fun x y => x * y) a b).sum

/-- Euclidean norm of a vector. -/
noncomputable def normList (a : List ℝ) : ℝ :=
  Real.sqrt (dotList a a)

/-- sklearn's `cosine_similarity` on one row pair: both vectors are divided by
their norms, a zero norm being replaced by 1 (the zero-vector guard of
`sklearn.preprocessing.normalize`), and the normalized vectors are dotted. -/
noncomputable def cosine_similarity (a b : List ℝ) : ℝ :=
  dotList a b /
    ((if normList a = 0 then 1 else normList a) *
     (if normList b = 0 then 1 else normList b))

theorem dotList_cons (x y : ℝ) (xs ys : List ℝ) :
    dotList (x :: xs) (y :: ys) = x * y + dotList xs ys := by
  simp [dotList]

theorem dotList_self_nonneg (a : List ℝ) : 0 ≤ dotList a a := by
  induction a with
  | nil => simp [dotList]
  | cons x xs ih =>
    rw [dotList_cons]
    exact add_nonneg (mul_self_nonneg x) ih

theorem dotList_comm (a b : List ℝ) : dotList a b = dotList b a := by
  induction a generalizing b with
  | nil => cases b <;> simp [dotList]
  | cons x xs ih =>
    cases b with
    | nil => simp [dotList]
    | cons y ys => rw [dotList_cons, dotList_cons, ih, mul_comm]

/-- Cauchy–Schwarz for the componentwise dot product. -/
theorem dotList_sq_le (a : List ℝ) : ∀ b : List ℝ,
    (dotList a b) ^ 2 ≤ dotList a a * dotList b b := by
  induction a with
  | nil => intro b; simp [dotList]
  | cons x xs ih =>
    intro b
    cases b with
    | nil =>
      simp only [dotList, List.zipWith_nil_right, List.sum_nil]
      norm_num
    | cons y ys =>
      have h := ih ys
      have hA := dotList_self_nonneg xs
      have hB := dotList_self_nonneg ys
      rw [dotList_cons, dotList_cons, dotList_cons]
      rcases eq_or_lt_of_le hB with hB0 | hBpos
      · have hd : dotList xs ys = 0 := by nlinarith [sq_nonneg (dotList xs ys)]
        rw [hd, ← hB0]
        nlinarith [mul_nonneg hA (sq_nonneg y)]
      · have key : dotList ys ys *
            ((x * x + dotList xs xs) * (y * y + dotList ys ys) -
              (x * y + dotList xs ys) ^ 2) =
            (x * dotList ys ys - y * dotList xs ys) ^ 2 +
              y ^ 2 * (dotList xs xs * dotList ys ys - dotList xs ys ^ 2) +
              dotList ys ys * (dotList xs xs * dotList ys ys - dotList xs ys ^ 2) := by
          ring
        have hsum : 0 ≤ dotList ys ys *
            ((x * x + dotList xs xs) * (y * y + dotList ys ys) -
              (x * y + dotList xs ys) ^ 2) := by
          rw [key]
          have h1 := sq_nonneg (x * dotList ys ys - y * dotList xs ys)
          have h2 := mul_nonneg (sq_nonneg y) (sub_nonneg.mpr h)
          have h3 := mul_nonneg hBpos.le (sub_nonneg.mpr h)
          linarith
        nlinarith [hsum, hBpos]

theorem abs_dotList_le (a b : List ℝ) : |dotList a b| ≤ normList a * normList b := by
  rw [normList, normList, ← Real.sqrt_mul (dotList_self_nonneg a),
    ← Real.sqrt_sq_eq_abs]
  exact Real.sqrt_le_sqrt (dotList_sq_le a b)

theorem dotList_eq_zero_of_self_zero (a b : List ℝ) (h : dotList a a = 0) :
    dotList a b = 0 := by
  have hle := dotList_sq_le a b
  rw [h, zero_mul] at hle
  have := sq_nonneg (dotList a b)
  have hsq : (dotList a b) ^ 2 = 0 := le_antisymm hle this
  exact (pow_eq_zero_iff (two_ne_zero)).mp hsq

theorem normList_eq_zero_iff (a : List ℝ) : normList a = 0 ↔ dotList a a = 0 := by
  rw [normList]
  exact Real.sqrt_eq_zero (dotList_self_nonneg a)

/-- Claim C7: for vectors of equal dimension, the similarity score equals
`dot(a,b) / (‖a‖·‖b‖)` and lies in `[-1, 1]` when both vectors have non-zero
norm; when either norm is exactly zero the similarity is `0`. -/
theorem C7_cosine_bounds (a b : List ℝ) (_hlen : a.length = b.length) :
    ((normList a ≠ 0 ∧ normList b ≠ 0) →
      cosine_similarity a b = dotList a b / (normList a * normList b) ∧
      -1 ≤ cosine_similarity a b ∧ cosine_similarity a b ≤ 1) ∧
    ((normList a = 0 ∨ normList b = 0) → cosine_similarity a b = 0) := by
  clear _hlen
  constructor
  · rintro ⟨ha, hb⟩
    have heq : cosine_similarity a b = dotList a b / (normList a * normList b) := by
      rw [cosine_similarity, if_neg ha, if_neg hb]
    have hapos : 0 < normList a :=
      lt_of_le_of_ne (Real.sqrt_nonneg _) (Ne.symm ha)
    have hbpos : 0 < normList b :=
      lt_of_le_of_ne (Real.sqrt_nonneg _) (Ne.symm hb)
    have habs : |dotList a b / (normList a * normList b)| ≤ 1 := by
      rw [abs_div, abs_of_pos (mul_pos hapos hbpos)]
      exact (div_le_one (mul_pos hapos hbpos)).mpr (abs_dotList_le a b)
    obtain ⟨h₁, h₂⟩ := abs_le.mp habs
    exact ⟨heq, by rw [heq]; exact h₁, by rw [heq]; exact h₂⟩
  · intro h
    have hzero : dotList a b = 0 := by
      rcases h with h | h
      · exact dotList_eq_zero_of_self_zero a b ((normList_eq_zero_iff a).mp h)
      · rw [dotList_comm]
        exact dotList_eq_zero_of_self_zero b a ((normList_eq_zero_iff b).mp h)
    rw [cosine_similarity, hzero, zero_div]

/-- Claim C7, witness: the vectors `[1,0]` and `[0,1]` have equal length and
unit norms; their similarity is within the bounds. -/
theorem C7_cosine_bounds_witness :
    normList [(1 : ℝ), 0] ≠ 0 ∧ normList [(0 : ℝ), 1] ≠ 0 ∧
    -1 ≤ cosine_similarity [(1 : ℝ), 0] [(0 : ℝ), 1] ∧
    cosine_similarity [(1 : ℝ), 0] [(0 : ℝ), 1] ≤ 1 := by
  have hda : dotList [(1 : ℝ), 0] [(1 : ℝ), 0] = 1 := by
    norm_num [dotList]
  have hdb : dotList [(0 : ℝ), 1] [(0 : ℝ), 1] = 1 := by
    norm_num [dotList]
  have hna : normList [(1 : ℝ), 0] = 1 := by
    rw [normList, hda, Real.sqrt_one]
  have hnb : normList [(0 : ℝ), 1] = 1 := by
    rw [normList, hdb, Real.sqrt_one]
  have h := (C7_cosine_bounds [(1 : ℝ), 0] [(0 : ℝ), 1] rfl).1
    ⟨by rw [hna]; exact one_ne_zero, by rw [hnb]; exact one_ne_zero⟩
  exact ⟨by rw [hna]; exact one_ne_zero, by rw [hnb]; exact one_ne_zero,
    h.2.1, h.2.2⟩

theorem foldl_max_spec (l : List ℚ) : ∀ a : ℚ,
    l.foldl max a ∈ a :: l ∧ a ≤ l.foldl max a ∧ ∀ x ∈ l, x ≤ l.foldl max a := by
  induction l with
  | nil => intro a; exact ⟨by simp, le_refl a, by simp⟩
  | cons y ys ih =>
    intro a
    simp only [List.foldl_cons]
    obtain ⟨hmem, hinit, hall⟩ := ih (max a y)
    refine ⟨?_, le_trans (le_max_left a y) hinit, ?_⟩
    · rcases List.mem_cons.mp hmem with h | h
      · rw [h]
        rcases max_choice a y with hm | hm <;> rw [hm] <;> simp
      · simp [h]
    · intro x hx
      rcases List.mem_cons.mp hx with h | h
      · rw [h]
        exact le_trans (le_max_right a y) hinit
      · exact hall x h

theorem foldl_min_spec (l : List ℚ) : ∀ a : ℚ,
    l.foldl min a ∈ a :: l ∧ l.foldl min a ≤ a ∧ ∀ x ∈ l, l.foldl min a ≤ x := by
  induction l with
  | nil => intro a; exact ⟨by simp, le_refl a, by simp⟩
  | cons y ys ih =>
    intro a
    simp only [List.foldl_cons]
    obtain ⟨hmem, hinit, hall⟩ := ih (min a y)
    refine ⟨?_, le_trans hinit (min_le_left a y), ?_⟩
    · rcases List.mem_cons.mp hmem with h | h
      · rw [h]
        rcases min_choice a y with hm | hm <;> rw [hm] <;> simp
      · simp [h]
    · intro x hx
      rcases List.mem_cons.mp hx with h | h
      · rw [h]
        exact le_trans hinit (min_le_right a y)
      · exact hall x h

/-- Claim C8: `get_search_statistics` on the empty list is exactly
`{count: 0}` with no numeric aggregates; on any non-empty list it reports the
count together with the average of the scores and a maximum and minimum that
are attained scores bounding all the others. -/
theorem C8_statistics (results : List (Patent × ℚ)) :
    get_search_statistics [] = ⟨0, none, none, none⟩ ∧
    (results ≠ [] →
      (get_search_statistics results).count = results.length ∧
      (get_search_statistics results).avg_similarity =
        some ((results.map fun r => r.2).sum / (results.length : ℚ)) ∧
      (∃ m, (get_search_statistics results).max_similarity = some m ∧
        m ∈ results.map (fun r => r.2) ∧
        ∀ s ∈ results.map (fun r => r.2), s ≤ m) ∧
      (∃ m, (get_search_statistics results).min_similarity = some m ∧
        m ∈ results.map (fun r => r.2) ∧
        ∀ s ∈ results.map (fun r => r.2), m ≤ s)) := by
  refine ⟨rfl, ?_⟩
  intro hne
  obtain ⟨r, rs, rfl⟩ := List.exists_cons_of_ne_nil hne
  have hstat : get_search_statistics (r :: rs) =
      { count := (r :: rs).length
        avg_similarity := some ((((r :: rs).map fun x => x.2)).sum /
          (((r :: rs).map fun x => x.2).length : ℚ))
        max_similarity := some ((rs.map fun x => x.2).foldl max r.2)
        min_similarity := some ((rs.map fun x => x.2).foldl min r.2) } := rfl
  rw [hstat]
  refine ⟨rfl, ?_, ?_, ?_⟩
  · rw [List.length_map]
  · obtain ⟨hmem, hinit, hall⟩ := foldl_max_spec (rs.map fun x => x.2) r.2
    refine ⟨(rs.map fun x => x.2).foldl max r.2, rfl, ?_, ?_⟩
    · rw [List.map_cons]
      exact hmem
    · intro s hs
      rw [List.map_cons] at hs
      rcases List.mem_cons.mp hs with h | h
      · rw [h]
        exact hinit
      · exact hall s h
  · obtain ⟨hmem, hinit, hall⟩ := foldl_min_spec (rs.map fun x => x.2) r.2
    refine ⟨(rs.map fun x => x.2).foldl min r.2, rfl, ?_, ?_⟩
    · rw [List.map_cons]
      exact hmem
    · intro s hs
      rw [List.map_cons] at hs
      rcases List.mem_cons.mp hs with h | h
      · rw [h]
        exact hinit
      · exact hall s h

/-- Claim C8, witness: a concrete two-result list has count 2 and average
`(1 + 0) / 2`, and the empty list maps to `{count: 0}`. -/
theorem C8_statistics_witness :
    get_search_statistics [] = ⟨0, none, none, none⟩ ∧
    (get_search_statistics [(patA, (1 : ℚ)), (patB, 0)]).count = 2 ∧
    (get_search_statistics [(patA, (1 : ℚ)), (patB, 0)]).avg_similarity =
      some (([(patA, (1 : ℚ)), (patB, 0)].map fun r => r.2).sum / (2 : ℚ)) := by
  have h := C8_statistics [(patA, (1 : ℚ)), (patB, 0)]
  have h2 := h.2 (by simp)
  exact ⟨h.1, h2.1, h2.2.1⟩

end PatentSearch
